import Mathlib

/-!
Verification of the grievance-management service against its specification.

The definitions below are a shallow embedding of the Python sources
`main.py`, `database.py` and `models.py`.  Strings are modelled as
`List Char`; the SQLAlchemy store is modelled as a list of records in
insertion order; timestamps are natural numbers supplied by the caller
(the clock is an external collaborator, as is the uuid generator and the
JSON parser of the standard library).  All regular-expression logic of
the source is embedded operationally: leftmost search, greedy/lazy
backtracking exactly as Python's `re` performs it on the patterns that
occur in the source.
-/

namespace Grievance

/-- Python `\s` on the ASCII range (`re` whitespace class). -/
def isPySpace (c : Char) : Bool :=
  c == ' ' || c == '\t' || c == '\n' || c == '\x0d' || c == '\x0c' || c == '\x0b'

/-- Python `\w` on the ASCII range: letters, digits, underscore. -/
def isWordChar (c : Char) : Bool :=
  c.isAlpha || c.isDigit || c == '_'

/-- The character class `[A-Za-z\s]` used by the name patterns in
`extract_data_fallback`. -/
def isAlphaSp (c : Char) : Bool :=
  c.isAlpha || isPySpace c

/-- The class `[,\s]` used by the complaint-text cleanup in
`extract_data_fallback`. -/
def isCS (c : Char) : Bool :=
  c == ',' || isPySpace c

/-- Lowercase a string, as Python's `str.lower` does on ASCII input
(`message.lower()` in `extract_data_fallback`). -/
def lowerStr (cs : List Char) : List Char :=
  cs.map Char.toLower

/-- Python `str.strip()`: drop whitespace from both ends. -/
def pyStrip (cs : List Char) : List Char :=
  ((cs.dropWhile isPySpace).reverse.dropWhile isPySpace).reverse

/-- `re.sub(r'^[,\s]+', '', t)` from the cleanup in `extract_data_fallback`. -/
def stripLeadCS (cs : List Char) : List Char :=
  cs.dropWhile isCS

/-- `re.sub(r'[,\s]+$', '', t)` from the cleanup in `extract_data_fallback`. -/
def stripTrailCS (cs : List Char) : List Char :=
  (cs.reverse.dropWhile isCS).reverse

/-- `re.sub(r'\s+', ' ', t)`: collapse every whitespace run to a single
space.  The boolean argument records whether the previous character was
part of a whitespace run already replaced. -/
def collapseAux : Bool → List Char → List Char
  | _, [] => []
  | prevSp, c :: rest =>
      if isPySpace c then
        if prevSp then collapseAux true rest
        else ' ' :: collapseAux true rest
      else c :: collapseAux false rest

/-- `re.sub(r'\s+', ' ', t)` as used on the complaint text. -/
def collapseWS (cs : List Char) : List Char :=
  collapseAux false cs

/-- Every whitespace character of the string is a plain space. -/
def wsOk (cs : List Char) : Prop :=
  ∀ c ∈ cs, isPySpace c = true → c = ' '

/-- No two adjacent whitespace characters. -/
def noDoubleWS : List Char → Bool
  | c :: d :: rest => (!(isPySpace c && isPySpace d)) && noDoubleWS (d :: rest)
  | _ => true

/-- The head, if any, is not whitespace. -/
def headNotWS : List Char → Bool
  | [] => true
  | c :: _ => !isPySpace c

/-! ### Data model (`database.py` `Complaint`, `models.py`) -/

/-- The persisted `Complaint` row of `database.py` (lines 25-36).
`complaint_id` is supplied by the caller (uuid generation is external),
`created_at`/`updated_at` are clock readings. -/
structure ComplaintRec where
  complaint_id : List Char
  name : List Char
  mobile_number : List Char
  complaint_text : List Char
  category : List Char
  priority : List Char
  status : List Char
  created_at : Nat
  updated_at : Nat
deriving DecidableEq

deriving instance DecidableEq for Except

/-- The dictionary of extracted fields flowing through
`collect_and_store_complaint` (`extracted_data.get(...)` in
`main.py` lines 204-209).  `none` models a missing key or JSON `null`. -/
structure Extracted where
  name : Option (List Char)
  mobile_number : Option (List Char)
  complaint_text : Option (List Char)
  category : Option (List Char)
  priority : Option (List Char)
deriving DecidableEq

/-- Python falsiness of an optional string: `None` and `""` are falsy
(the `if not name or not mobile_number or not complaint_text` test in
`main.py` line 212). -/
def falsy : Option (List Char) → Bool
  | none => true
  | some t => t.isEmpty

/-- The validation-and-store tail of `collect_and_store_complaint`
(`main.py` lines 204-241).  Returns the store after the request together
with either the stored record or the HTTP error `(status, detail)`.
On the validation error the store is returned unchanged: in the source
the `HTTPException` is raised before `db.add`. -/
def processExtracted (d : Extracted) (st : List ComplaintRec)
    (newId : List Char) (now : Nat) :
    List ComplaintRec × Except (Nat × List Char) ComplaintRec :=
  if falsy d.name || falsy d.mobile_number || falsy d.complaint_text then
    let missing : List (List Char) :=
      (if falsy d.name then ["name".toList] else []) ++
      (if falsy d.mobile_number then ["mobile number".toList] else []) ++
      (if falsy d.complaint_text then ["complaint description".toList] else [])
    (st, .error (400,
      "Incomplete complaint data. Missing: ".toList ++
        List.intercalate ", ".toList missing))
  else
    let r : ComplaintRec :=
      { complaint_id := newId
        name := d.name.getD []
        mobile_number := d.mobile_number.getD []
        complaint_text := d.complaint_text.getD []
        category := d.category.getD "general".toList
        priority := d.priority.getD "medium".toList
        status := "pending".toList
        created_at := now
        updated_at := now }
    (st ++ [r], .ok r)

/-- Does `text` start with `pat`? -/
def startsWithStr : List Char → List Char → Bool
  | [], _ => true
  | _ :: _, [] => false
  | p :: ps, c :: cs => p == c && startsWithStr ps cs

/-- Substring containment, Python's `pat in hay`. -/
def containsSub (hay pat : List Char) : Bool :=
  match hay with
  | [] => pat.isEmpty
  | _ :: rest => startsWithStr pat hay || containsSub rest pat

/-- `Complaint.name.ilike(f"%{x}%")`: case-insensitive substring match
(`main.py` line 288). -/
def ilikeContains (field pat : List Char) : Bool :=
  containsSub (lowerStr field) (lowerStr pat)

/-- Newest-first comparison used by `order_by(Complaint.created_at.desc())`. -/
def createdDesc (a b : ComplaintRec) : Prop :=
  b.created_at ≤ a.created_at

instance : DecidableRel createdDesc := fun a b =>
  inferInstanceAs (Decidable (b.created_at ≤ a.created_at))

instance : IsTotal ComplaintRec createdDesc :=
  ⟨fun a b => Nat.le_total b.created_at a.created_at⟩

instance : IsTrans ComplaintRec createdDesc :=
  ⟨fun _ _ _ h h' => Nat.le_trans h' h⟩

/-- The database query of `retrieve_complaint_info` (`main.py` lines
282-294): equality filter on the mobile number, `ilike` filter on the
name, and — only when neither criterion was extracted — newest-first
order with `limit(5)`. -/
def findComplaints (st : List ComplaintRec)
    (mobile? : Option (List Char)) (name? : Option (List Char)) :
    List ComplaintRec :=
  let q := match mobile? with
    | some m => st.filter (fun r => r.mobile_number == m)
    | none => st
  let q := match name? with
    | some n => q.filter (fun r => ilikeContains r.name n)
    | none => q
  if mobile?.isNone && name?.isNone then
    (List.insertionSort createdDesc q).take 5
  else q

/-! ### The regex fallback extractor (`extract_data_fallback`, `main.py` 33-101)

Python's `re` is embedded operationally for the patterns that occur in
the source: `re.search` scans candidate start positions left to right
and at each position runs the pattern with backtracking; `re.sub`
removes every non-overlapping leftmost match.  Greedy pieces (`\s+`)
try longer first, lazy pieces (`[A-Za-z\s]+?`) try shorter first, and
on failure the most recently created choice point is retried first. -/

/-- Does `\b\d{10}\b` match starting at the head of `cs`, given that the
character preceding `cs` in the scanned string is known?  The left
boundary is checked by the caller; here: ten digits followed by a
non-word character or the end of the string. -/
def ok10 (cs : List Char) : Bool :=
  let w := cs.take 10
  w.length == 10 && w.all Char.isDigit && !isWordChar (cs.getD 10 ' ')

/-- `re.search(r'\b\d{10}\b', message)` (`main.py` line 46): scan start
positions left to right; `prevW` records whether the previous character
of the scanned string is a word character (false at the start). -/
def mobileSearchAux : Bool → List Char → Option (List Char)
  | _, [] => none
  | prevW, c :: rest =>
      if !prevW && ok10 (c :: rest) then some ((c :: rest).take 10)
      else mobileSearchAux (isWordChar c) rest

/-- The mobile-number extraction of `extract_data_fallback`. -/
def extractMobile (msg : List Char) : Option (List Char) :=
  mobileSearchAux false msg

/-- `re.sub(r'\b\d{10}\b', '', t)` (`main.py` line 75): delete every
non-overlapping match, scanning left to right; after a deletion the scan
resumes after the match, whose last character (a digit, a word
character) is the new left context. -/
def subMobileAux : Nat → Bool → List Char → List Char
  | 0, _, cs => cs
  | _ + 1, _, [] => []
  | fuel + 1, prevW, c :: rest =>
      if !prevW && ok10 (c :: rest) then subMobileAux fuel true (rest.drop 9)
      else c :: subMobileAux fuel (isWordChar c) rest

/-- The mobile-deletion pass of the complaint-text cleanup.  Every
match consumes ten characters, so fuel equal to the length of the text
suffices. -/
def subMobile (cs : List Char) : List Char :=
  subMobileAux cs.length false cs

/-- Case-insensitive literal match (re.IGNORECASE on a literal):
returns the rest of the input after the literal. -/
def matchLitCI : List Char → List Char → Option (List Char)
  | [], cs => some cs
  | _ :: _, [] => none
  | p :: ps, c :: cs => if p.toLower == c.toLower then matchLitCI ps cs else none

/-- The terminator `(?:\s|,|\.|$)` of every name pattern: consumes one
whitespace, comma or dot, or matches the end of the string. -/
def matchTerm : List Char → Option (List Char)
  | [] => some []
  | c :: rest => if isPySpace c || c == ',' || c == '.' then some rest else none

/-- Length of the leading run of `[A-Za-z\s]` characters. -/
def classRun (cs : List Char) : Nat :=
  (cs.takeWhile isAlphaSp).length

/-- Length of the leading run of whitespace characters. -/
def spaceRun (cs : List Char) : Nat :=
  (cs.takeWhile isPySpace).length

/-- The lazy group `([A-Za-z\s]+?)` followed by the terminator: try
group lengths `1, 2, …` ascending (lazy), first success wins.  Returns
the captured group and the rest of the input after the whole match. -/
def tryGroup (cs : List Char) : Option (List Char × List Char) :=
  (List.range (classRun cs)).findSome? fun k =>
    let g := k + 1
    match matchTerm (cs.drop g) with
    | some rest => some (cs.take g, rest)
    | none => none

/-- Greedy `\s+` (or `\s*` when `jmin = 0`) followed by the lazy group
and terminator: the space count `j` is tried from the maximal run `k`
downwards (greedy with backtracking); for each `j` the group is retried
lazily from scratch. -/
def trySpaces (cs : List Char) (k jmin : Nat) : Option (List Char × List Char) :=
  (List.range (k + 1 - jmin)).findSome? fun t =>
    tryGroup (cs.drop (k - t))

/-- Match one of the patterns `lit` `\s+` (or `\s*`) `([A-Za-z\s]+?)`
`(?:\s|,|\.|$)` at the head of `cs` (patterns 1-4 of
`extract_data_fallback`). -/
def matchShapeA (lit : List Char) (jmin : Nat) (cs : List Char) :
    Option (List Char × List Char) :=
  (matchLitCI lit cs).bind fun rest1 =>
    trySpaces rest1 (spaceRun rest1) jmin

/-- Greedy `\s+` followed by the literal and terminator, for the
group-first patterns: space count tried from the maximal run `k`
downwards. -/
def tryLitSp (cs lit : List Char) (k : Nat) : Option (List Char) :=
  (List.range k).findSome? fun t =>
    match matchLitCI lit (cs.drop (k - t)) with
    | some rest => matchTerm rest
    | none => none

/-- Match one of the patterns `([A-Za-z\s]+?)` `\s+` `lit`
`(?:\s|,|\.|$)` at the head of `cs` (patterns 5-6 of
`extract_data_fallback`): the group is lazy, so its length is tried
ascending; within each group length the `\s+` backtracks greedily. -/
def matchShapeB (lit : List Char) (cs : List Char) :
    Option (List Char × List Char) :=
  (List.range (classRun cs)).findSome? fun kk =>
    let g := kk + 1
    let rest := cs.drop g
    (tryLitSp rest lit (spaceRun rest)).map fun r => (cs.take g, r)

/-- The ordered name-pattern list of `extract_data_fallback`
(`main.py` lines 51-58).  Each entry maps a suffix of the message to
`(captured group, rest after the whole match)`. -/
def namePatterns : List (List Char → Option (List Char × List Char)) :=
  [ matchShapeA "my name is".toList 1
  , matchShapeA "i am".toList 1
  , matchShapeA "name:".toList 0
  , matchShapeA "call me".toList 1
  , matchShapeB "here".toList
  , matchShapeB "is my name".toList ]

/-- `re.search(pattern, message, re.IGNORECASE)` for a name pattern:
try start positions left to right, return the captured group of the
first match. -/
def searchPattern (m : List Char → Option (List Char × List Char)) :
    List Char → Option (List Char)
  | [] => (m []).map (·.1)
  | cs@(_ :: rest) =>
      match m cs with
      | some (g, _) => some g
      | none => searchPattern m rest

/-- `re.sub(pattern, '', text, flags=re.IGNORECASE)` for a name
pattern: delete every non-overlapping leftmost match.  Every pattern of
the source consumes at least one character per match, so fuel equal to
the length of the text suffices. -/
def subPatternAux (m : List Char → Option (List Char × List Char)) :
    Nat → List Char → List Char
  | 0, cs => cs
  | _ + 1, [] => []
  | fuel + 1, cs@(c :: rest) =>
      match m cs with
      | some (_, after) => subPatternAux m fuel after
      | none => c :: subPatternAux m fuel rest

/-- Deletion of all matches of one name pattern. -/
def subPattern (m : List Char → Option (List Char × List Char))
    (cs : List Char) : List Char :=
  subPatternAux m cs.length cs

/-- The name extraction of `extract_data_fallback` (`main.py` lines
60-64): first pattern with a match anywhere wins; the captured group is
stripped. -/
def extractName (msg : List Char) : Option (List Char) :=
  (namePatterns.findSome? fun m => searchPattern m msg).map pyStrip

/-- The final whitespace/punctuation normalization of the cleanup
(`main.py` lines 78-80): collapse whitespace runs, strip surrounding
whitespace, then strip leading and trailing `[,\s]+`. -/
def tidy (cs : List Char) : List Char :=
  stripTrailCS (stripLeadCS (pyStrip (collapseWS cs)))

/-- The complaint-text cleanup of `extract_data_fallback` (`main.py`
lines 66-83): remove every name-pattern match (patterns applied in
order over the evolving string), remove every 10-digit mobile match,
then normalize whitespace and edges. -/
def cleanupText (msg : List Char) : List Char :=
  tidy (subMobile (namePatterns.foldl (fun acc m => subPattern m acc) msg))

/-- The complaint-text extraction: the cleaned text, or `None` when the
cleanup result is empty (`if complaint_text:`). -/
def extractText (msg : List Char) : Option (List Char) :=
  let t := cleanupText msg
  if t.isEmpty then none else some t

/-- `any(word in message.lower() for word in ws)`. -/
def containsAny (msg : List Char) (ws : List String) : Bool :=
  ws.any fun w => containsSub (lowerStr msg) w.toList

/-- The category keyword scan of `extract_data_fallback` (`main.py`
lines 86-91). -/
def fallbackCategory (msg : List Char) : List Char :=
  if containsAny msg ["billing", "bill", "charge", "payment", "cost"] then
    "billing".toList
  else if containsAny msg ["technical", "app", "software", "crash", "bug"] then
    "technical".toList
  else if containsAny msg ["service", "support", "customer service"] then
    "service".toList
  else "general".toList

/-- The priority keyword scan of `extract_data_fallback` (`main.py`
lines 94-99). -/
def fallbackPriority (msg : List Char) : List Char :=
  if containsAny msg ["urgent", "emergency", "critical"] then
    "urgent".toList
  else if containsAny msg ["high", "important", "serious"] then
    "high".toList
  else if containsAny msg ["low", "minor", "small"] then
    "low".toList
  else "medium".toList

/-- `extract_data_fallback` (`main.py` lines 33-101). -/
def extract_data_fallback (msg : List Char) : Extracted :=
  { name := extractName msg
    mobile_number := extractMobile msg
    complaint_text := extractText msg
    category := some (fallbackCategory msg)
    priority := some (fallbackPriority msg) }

/-! ### The LLM extraction adapter (`collect_and_store_complaint`, `main.py` 176-202) -/

/-- Does `cs` end with `pat`? -/
def endsWithStr (pat cs : List Char) : Bool :=
  startsWithStr pat.reverse cs.reverse

/-- The code-fence stripping of `main.py` lines 182-187: drop a leading
literal backtick-backtick-backtick-`json` (7 characters) or a leading
bare fence (3 characters), then drop a trailing fence. -/
def stripFences (cs : List Char) : List Char :=
  let t := if startsWithStr "```json".toList cs then cs.drop 7
           else if startsWithStr "```".toList cs then cs.drop 3
           else cs
  if endsWithStr "```".toList t then t.take (t.length - 3) else t

/-- The prefix of `cs` up to and including the last right brace, or
`none` when `cs` has no right brace — the `.*\x7d` tail of the greedy
DOTALL pattern. -/
def upToLastRB : List Char → Option (List Char)
  | [] => none
  | c :: rest =>
      match upToLastRB rest with
      | some t => some (c :: t)
      | none => if c == '\x7d' then some [c] else none

/-- `re.search(r'\{.*\}', response_text, re.DOTALL)` (`main.py` line
191): leftmost start position whose character is a left brace and which
has a right brace strictly after it; the greedy `.*` extends the match
to the last right brace of the whole text. -/
def braceSearch : List Char → Option (List Char)
  | [] => none
  | c :: rest =>
      if c == '\x7b' then
        match upToLastRB rest with
        | some t => some (c :: t)
        | none => braceSearch rest
      else braceSearch rest

/-- The JSON-candidate selection of `main.py` lines 179-193: strip the
reply, strip code fences, then replace the text by the brace-pattern
match when one exists. -/
def extractCandidate (reply : List Char) : List Char :=
  let t := stripFences (pyStrip reply)
  match braceSearch t with
  | some m => m
  | none => t

/-- `collect_and_store_complaint` (`main.py` lines 160-241) after the
inference call: the raw reply is processed into a candidate, handed to
the JSON parser (`json.loads`, an external collaborator, passed in as
`parseJson`; `none` models `json.JSONDecodeError`), and on parse
failure the regex fallback runs on the original user message; the
resulting fields are then validated and stored. -/
def collectComplaint (parseJson : List Char → Option Extracted)
    (llmReply userMsg : List Char) (st : List ComplaintRec)
    (newId : List Char) (now : Nat) :
    List ComplaintRec × Except (Nat × List Char) ComplaintRec :=
  let d := match parseJson (pyStrip (extractCandidate llmReply)) with
    | some d => d
    | none => extract_data_fallback userMsg
  processExtracted d st newId now

/-! ### Specification-side comparison definitions

These definitions follow the words of the specification (not the code)
and exist only to be compared with the code-derived definitions. -/

/-- From the spec's words: the first maximal run of consecutive digits
having length exactly 10 ("first substring matching exactly 10
consecutive digits", "a valid 10-digit run ... never a
substring/superstring of digits").  A maximal run is a digit run not
part of a longer digit run. -/
def maximalDigitRunsAux : Nat → List Char → List (List Char)
  | 0, _ => []
  | _ + 1, [] => []
  | fuel + 1, c :: rest =>
      if c.isDigit then
        (c :: rest.takeWhile Char.isDigit) ::
          maximalDigitRunsAux fuel (rest.dropWhile Char.isDigit)
      else maximalDigitRunsAux fuel rest

/-- The maximal digit runs of a string, in order.  Each step consumes
at least one character, so fuel equal to the length suffices. -/
def maximalDigitRuns (cs : List Char) : List (List Char) :=
  maximalDigitRunsAux cs.length cs

/-- The phone extraction as the claim words it: the first maximal digit
run of length exactly 10. -/
def claimPhone (cs : List Char) : Option (List Char) :=
  (maximalDigitRuns cs).find? fun r => r.length == 10

/-- From the spec's words: the balanced continuation of a JSON object
opened at depth `d`, up to and including the brace closing it. -/
def balancedFrom : Nat → List Char → Option (List Char)
  | _, [] => none
  | d, c :: rest =>
      if c == '\x7d' then
        if d == 1 then some [c]
        else (balancedFrom (d - 1) rest).map (c :: ·)
      else if c == '\x7b' then (balancedFrom (d + 1) rest).map (c :: ·)
      else (balancedFrom d rest).map (c :: ·)

/-- From the spec's words: "the first brace-delimited JSON object found
in the remaining text" — the balanced brace-delimited substring starting
at the first left brace that is properly closed. -/
def firstJsonObject : List Char → Option (List Char)
  | [] => none
  | c :: rest =>
      if c == '\x7b' then (balancedFrom 1 rest).map (c :: ·)
      else firstJsonObject rest

/-- Declarative description of the code's brace-pattern match: the
substring from the first left brace through the last right brace, when
the first left brace lies strictly before the last right brace. -/
def lastIdxRB : List Char → Option Nat
  | [] => none
  | c :: rest =>
      match lastIdxRB rest with
      | some j => some (j + 1)
      | none => if c == '\x7d' then some 0 else none

/-- Declarative candidate span: first `\x7b` index to last `\x7d` index. -/
def braceSpanD (cs : List Char) : Option (List Char) :=
  match cs.findIdx? (· == '\x7b'), lastIdxRB cs with
  | some i, some j => if i < j then some ((cs.drop i).take (j + 1 - i)) else none
  | _, _ => none

/-- Does `\b\d{10}\b` match at offset `i` of `cs`, where `b` tells
whether the character preceding `cs` is a word character? -/
def okAtB (b : Bool) (cs : List Char) (i : Nat) : Bool :=
  (if i == 0 then !b else !isWordChar (cs.getD (i - 1) ' ')) && ok10 (cs.drop i)

/-- The `ComplaintDetails` response model (`models.py` lines 26-30). -/
structure ComplaintDetails where
  query : List Char
  response : List Char
  complaints_found : Nat
  complaints : List ComplaintRec
deriving DecidableEq

/-- The response construction of `retrieve_complaint_info` (`main.py`
lines 329-334).  The search criteria are passed in (their extraction
from the message is independent of this claim) and the language-model
summary text is an external collaborator's reply. -/
def retrieveComplaintInfo (msg : List Char)
    (mobile? name? : Option (List Char))
    (st : List ComplaintRec) (llmText : List Char) : ComplaintDetails :=
  let found := findComplaints st mobile? name?
  { query := msg
    response := pyStrip llmText
    complaints_found := found.length
    complaints := found }

/-- A sample store used to exercise `findComplaints` on a concrete
state with more than five records. -/
def sampleStore : List ComplaintRec :=
  (List.range 7).map fun i =>
    ⟨"GRV-".toList ++ [Char.ofNat (48 + i)], "Ann".toList,
      "1234567890".toList, "t".toList, "general".toList, "medium".toList,
      "pending".toList, i, i⟩

/-! ### Theorems -/

/-- C4: with neither a phone-number nor a name criterion, the retrieval
query returns at most 5 records, they are ordered by `created_at`
descending, and every record of the store left out is no newer than any
record returned. -/
theorem c4_find_no_criteria_recent_five (st : List ComplaintRec) :
    (findComplaints st none none).length ≤ 5 ∧
    List.Sorted createdDesc (findComplaints st none none) ∧
    ∀ a ∈ findComplaints st none none, ∀ b ∈ st,
      b ∉ findComplaints st none none → b.created_at ≤ a.created_at := by
  have hfind : findComplaints st none none =
      (List.insertionSort createdDesc st).take 5 := rfl
  have hsorted : List.Sorted createdDesc (List.insertionSort createdDesc st) :=
    List.sorted_insertionSort createdDesc st
  have hperm : (List.insertionSort createdDesc st).Perm st :=
    List.perm_insertionSort createdDesc st
  refine ⟨?_, ?_, ?_⟩
  · rw [hfind, List.length_take]; exact Nat.min_le_left _ _
  · rw [hfind]
    exact List.Pairwise.sublist (List.take_sublist 5 _) hsorted
  · intro a ha b hb hnb
    have hbL : b ∈ List.insertionSort createdDesc st := hperm.mem_iff.mpr hb
    have hsplit : List.insertionSort createdDesc st =
        (List.insertionSort createdDesc st).take 5 ++
          (List.insertionSort createdDesc st).drop 5 :=
      (List.take_append_drop 5 _).symm
    have hbd : b ∈ (List.insertionSort createdDesc st).drop 5 := by
      rcases List.mem_append.mp (hsplit ▸ hbL) with h' | h'
      · exact absurd (hfind ▸ h') hnb
      · exact h'
    have hpw := hsorted
    rw [hsplit] at hpw
    exact (List.pairwise_append.mp hpw).2.2 a (hfind ▸ ha) b hbd

theorem c4_find_witness :
    (findComplaints sampleStore none none).length ≤ 5 ∧
    List.Sorted createdDesc (findComplaints sampleStore none none) ∧
    ∀ a ∈ findComplaints sampleStore none none, ∀ b ∈ sampleStore,
      b ∉ findComplaints sampleStore none none → b.created_at ≤ a.created_at :=
  c4_find_no_criteria_recent_five sampleStore

/-- C10: for every retrieval request that completes successfully, the
`complaints_found` count in the response equals the length of the
`complaints` list returned in the same response. -/
theorem c10_found_eq_length (msg : List Char) (m? n? : Option (List Char))
    (st : List ComplaintRec) (llm : List Char) :
    (retrieveComplaintInfo msg m? n? st llm).complaints_found =
      (retrieveComplaintInfo msg m? n? st llm).complaints.length := rfl

/-- C5: for every language-model reply whose candidate payload fails to
parse as JSON, the intake flow falls back to the regex extractor applied
to the original user message, and the parse failure is never surfaced:
the whole request outcome (store and response) is exactly what the
fallback extractor alone would produce. -/
theorem c5_parse_failure_falls_back (parseJson : List Char → Option Extracted)
    (reply msg : List Char) (st : List ComplaintRec) (newId : List Char)
    (now : Nat) (h : parseJson (pyStrip (extractCandidate reply)) = none) :
    collectComplaint parseJson reply msg st newId now =
      processExtracted (extract_data_fallback msg) st newId now := by
  simp only [collectComplaint, h]

theorem c5_parse_failure_witness :
    (fun _ : List Char => (none : Option Extracted))
        (pyStrip (extractCandidate "not json".toList)) = none ∧
    collectComplaint (fun _ => none) "not json".toList "x".toList []
        "GRV-1".toList 0 =
      processExtracted (extract_data_fallback "x".toList) [] "GRV-1".toList 0 :=
  ⟨rfl, c5_parse_failure_falls_back _ _ _ _ _ _ rfl⟩

/-- C3: whenever any of name, phone number or complaint text is null or
empty, intake fails with a 400 whose detail is
`Incomplete complaint data. Missing: ` followed by the comma-joined
names of exactly the missing fields, in the order name, mobile number,
complaint description; the store is unchanged. -/
theorem c3_validation_lists_all_missing (d : Extracted)
    (st : List ComplaintRec) (newId : List Char) (now : Nat)
    (h : falsy d.name = true ∨ falsy d.mobile_number = true ∨
      falsy d.complaint_text = true) :
    processExtracted d st newId now =
      (st, .error (400, "Incomplete complaint data. Missing: ".toList ++
        List.intercalate ", ".toList
          ([("name", falsy d.name), ("mobile number", falsy d.mobile_number),
            ("complaint description", falsy d.complaint_text)].filterMap
              fun p => if p.2 then some p.1.toList else none))) := by
  cases hn : falsy d.name <;> cases hm : falsy d.mobile_number <;>
    cases ht : falsy d.complaint_text <;>
      simp_all [processExtracted]

theorem c3_validation_witness :
    (falsy (Extracted.mk none (some "1234567890".toList) none none none).name = true ∨
      falsy (Extracted.mk none (some "1234567890".toList) none none none).mobile_number = true ∨
      falsy (Extracted.mk none (some "1234567890".toList) none none none).complaint_text = true) ∧
    processExtracted ⟨none, some "1234567890".toList, none, none, none⟩ []
        "GRV-1".toList 0 =
      ([], .error (400,
        "Incomplete complaint data. Missing: name, complaint description".toList)) := by
  refine ⟨Or.inl rfl, ?_⟩
  have h := c3_validation_lists_all_missing
    ⟨none, some "1234567890".toList, none, none, none⟩ [] "GRV-1".toList 0
    (Or.inl rfl)
  rw [h]; decide

/-- C7: a successful create of a record with phone number X followed
immediately by `find(phone_number=X)` returns a list containing the
just-created record. -/
theorem c7_create_then_find_contains (d : Extracted)
    (st st' : List ComplaintRec) (newId : List Char) (now : Nat)
    (r : ComplaintRec)
    (h : processExtracted d st newId now = (st', .ok r)) :
    r ∈ findComplaints st' (some r.mobile_number) none := by
  by_cases hc : (falsy d.name || falsy d.mobile_number ||
      falsy d.complaint_text) = true
  · simp [processExtracted, hc] at h
  · unfold processExtracted at h
    rw [if_neg hc] at h
    dsimp only at h
    injection h with h1 h2
    injection h2 with h3
    subst h3
    subst h1
    simp [findComplaints, List.mem_filter]

theorem c7_create_find_witness :
    processExtracted
        ⟨some "Ann".toList, some "1234567890".toList, some "late fee".toList,
          none, none⟩ [] "GRV-1".toList 7 =
      ([⟨"GRV-1".toList, "Ann".toList, "1234567890".toList, "late fee".toList,
          "general".toList, "medium".toList, "pending".toList, 7, 7⟩],
        .ok ⟨"GRV-1".toList, "Ann".toList, "1234567890".toList,
          "late fee".toList, "general".toList, "medium".toList,
          "pending".toList, 7, 7⟩) ∧
    (⟨"GRV-1".toList, "Ann".toList, "1234567890".toList, "late fee".toList,
        "general".toList, "medium".toList, "pending".toList, 7, 7⟩ :
        ComplaintRec) ∈
      findComplaints
        [⟨"GRV-1".toList, "Ann".toList, "1234567890".toList, "late fee".toList,
          "general".toList, "medium".toList, "pending".toList, 7, 7⟩]
        (some "1234567890".toList) none :=
  ⟨by decide,
    c7_create_then_find_contains
      ⟨some "Ann".toList, some "1234567890".toList, some "late fee".toList,
        none, none⟩ []
      [⟨"GRV-1".toList, "Ann".toList, "1234567890".toList, "late fee".toList,
        "general".toList, "medium".toList, "pending".toList, 7, 7⟩]
      "GRV-1".toList 7
      ⟨"GRV-1".toList, "Ann".toList, "1234567890".toList, "late fee".toList,
        "general".toList, "medium".toList, "pending".toList, 7, 7⟩
      (by decide)⟩

/-- C1 (counterexample): fields parsed from the language-model adapter
are stored without validation — a reply whose parsed `category` is
`spam` produces a stored record whose category is outside
technical/billing/service/general.  This refutes the claim that the
category invariant holds for every intake create. -/
theorem c1_llm_category_stored_unvalidated :
    (collectComplaint
        (fun _ => some ⟨some "Ann".toList, some "1234567890".toList,
          some "late fee".toList, some "spam".toList, some "whenever".toList⟩)
        "\x7b\"category\": \"spam\"\x7d".toList "msg".toList []
        "GRV-1".toList 0).2 =
      .ok ⟨"GRV-1".toList, "Ann".toList, "1234567890".toList,
        "late fee".toList, "spam".toList, "whenever".toList,
        "pending".toList, 0, 0⟩ ∧
    "spam".toList ∉ ["technical".toList, "billing".toList, "service".toList,
      "general".toList] := by
  constructor
  · decide
  · decide

/-- C1 (amended): every set of fields produced by the regex fallback
extractor has a category among technical/billing/service/general and a
priority among low/medium/high/urgent, so every record created through
the fallback path satisfies the invariant. -/
theorem c1_fallback_category_priority_valid (msg : List Char) :
    (extract_data_fallback msg).category ∈
      [some "technical".toList, some "billing".toList, some "service".toList,
        some "general".toList] ∧
    (extract_data_fallback msg).priority ∈
      [some "low".toList, some "medium".toList, some "high".toList,
        some "urgent".toList] := by
  constructor <;>
    simp only [extract_data_fallback, fallbackCategory, fallbackPriority] <;>
      split_ifs <;> simp

/-- The operational `.*\x7d` tail equals: take up to the last right
brace, when one exists. -/
theorem upToLastRB_eq (cs : List Char) :
    upToLastRB cs = (lastIdxRB cs).map fun j => cs.take (j + 1) := by
  induction cs with
  | nil => rfl
  | cons c rest ih =>
      simp only [upToLastRB, lastIdxRB, ih]
      cases h : lastIdxRB rest with
      | some j => simp [List.take_succ_cons]
      | none =>
          by_cases hc : c == '\x7d' <;> simp [hc]

/-- A text without a right brace has no brace-pattern match. -/
theorem braceSearch_none_of_noRB (cs : List Char)
    (h : lastIdxRB cs = none) : braceSearch cs = none := by
  induction cs with
  | nil => rfl
  | cons c rest ih =>
      simp only [lastIdxRB] at h
      rcases hrest : lastIdxRB rest with _ | j
      · rw [hrest] at h
        have hc : (c == '\x7d') = false := by
          by_cases hb : c == '\x7d' <;> simp [hb] at h ⊢
        simp only [braceSearch, upToLastRB_eq, hrest, Option.map_none]
        split <;> exact ih hrest
      · rw [hrest] at h; simp at h

/-- The operational embedding of `re.search(r'\{.*\}', …, re.DOTALL)`
coincides with its declarative description: the substring from the
first left brace through the last right brace, when the former lies
before the latter. -/
theorem braceSearch_eq_spanD (cs : List Char) :
    braceSearch cs = braceSpanD cs := by
  induction cs with
  | nil => rfl
  | cons c rest ih =>
      by_cases hc : c = '\x7b'
      · subst hc
        rcases hrest : lastIdxRB rest with _ | j
        · have h1 : braceSearch ('\x7b' :: rest) = braceSearch rest := by
            simp [braceSearch, upToLastRB_eq, hrest]
          rw [h1, braceSearch_none_of_noRB rest hrest]
          have h2 : lastIdxRB ('\x7b' :: rest) = none := by
            simp [lastIdxRB, hrest]
          simp [braceSpanD, h2]
        · have h1 : braceSearch ('\x7b' :: rest) =
              some ('\x7b' :: rest.take (j + 1)) := by
            simp [braceSearch, upToLastRB_eq, hrest]
          have h2 : lastIdxRB ('\x7b' :: rest) = some (j + 1) := by
            simp [lastIdxRB, hrest]
          have h3 : List.findIdx? (· == '\x7b') ('\x7b' :: rest) = some 0 := by
            simp
          rw [h1]
          simp [braceSpanD, h2, h3, List.take_succ_cons]
      · have hcb : (c == '\x7b') = false := by simp [hc]
        have h1 : braceSearch (c :: rest) = braceSearch rest := by
          simp [braceSearch, hcb]
        have h4 : List.findIdx? (· == '\x7b') (c :: rest) =
            (List.findIdx? (· == '\x7b') rest).map (· + 1) := by
          rw [List.findIdx?_cons, hcb]
          simp [List.findIdx?_succ]
        rw [h1, ih]
        rcases hfi : List.findIdx? (· == '\x7b') rest with _ | i
        · simp [braceSpanD, h4, hfi]
        · rcases hrest : lastIdxRB rest with _ | j
          · have h2 : lastIdxRB (c :: rest) =
                if c == '\x7d' then some 0 else none := by
              simp [lastIdxRB, hrest]
            by_cases hd : (c == '\x7d') = true
            · simp [braceSpanD, h4, hfi, hrest, h2, hd]
            · simp [braceSpanD, h4, hfi, hrest, h2, hd]
          · have h2 : lastIdxRB (c :: rest) = some (j + 1) := by
              simp [lastIdxRB, hrest]
            simp only [braceSpanD, h4, hfi, hrest, h2, Option.map_some']
            by_cases hij : i < j
            · rw [if_pos hij, if_pos (Nat.succ_lt_succ hij)]
              rw [List.drop_succ_cons]
              have : j + 1 + 1 - (i + 1) = j + 1 - i := by omega
              rw [this]
            · rw [if_neg hij,
                if_neg (fun h => hij (Nat.lt_of_succ_lt_succ h))]

/-- C8 (counterexample): on a reply containing two JSON objects the
candidate selected by the code is the whole first-brace-to-last-brace
span, not the first brace-delimited JSON object (which the balanced
scan `firstJsonObject` identifies). -/
theorem c8_candidate_not_first_object :
    firstJsonObject
        (stripFences (pyStrip "\x7b\"x\":1\x7d \x7b\"y\":2\x7d".toList)) =
      some "\x7b\"x\":1\x7d".toList ∧
    extractCandidate "\x7b\"x\":1\x7d \x7b\"y\":2\x7d".toList =
      "\x7b\"x\":1\x7d \x7b\"y\":2\x7d".toList ∧
    "\x7b\"x\":1\x7d \x7b\"y\":2\x7d".toList ≠ "\x7b\"x\":1\x7d".toList :=
  ⟨by decide, by decide, by decide⟩

/-- C8 (amended): after stripping the reply and the literal fences
(a leading triple-backtick-`json` or bare triple-backtick, and a
trailing triple-backtick), the JSON parse candidate is the substring
from the first left brace through the last right brace when the first
left brace lies strictly before the last right brace, and otherwise the
whole stripped text. -/
theorem c8_candidate_first_to_last_brace (reply : List Char) :
    extractCandidate reply =
      (match braceSpanD (stripFences (pyStrip reply)) with
       | some m => m
       | none => stripFences (pyStrip reply)) := by
  simp only [extractCandidate, braceSearch_eq_spanD]

/-- `find?` over a mapped list searches the preimage. -/
theorem find?_map_comp {α β : Type} (f : α → β) (p : β → Bool)
    (l : List α) :
    (l.map f).find? p = (l.find? fun a => p (f a)).map f := by
  induction l with
  | nil => rfl
  | cons a l ih =>
      by_cases h : p (f a) = true <;> simp [List.find?_cons, h, ih]

/-- Shifting the match offset across the head of the scanned string. -/
theorem okAtB_succ (b : Bool) (c : Char) (rest : List Char) (i : Nat) :
    okAtB b (c :: rest) (i + 1) = okAtB (isWordChar c) rest i := by
  cases i with
  | zero => simp [okAtB]
  | succ k => simp [okAtB]

/-- The left-to-right scan of `re.search(r'\b\d{10}\b', …)` returns the
window at the first offset where the pattern matches. -/
theorem mobileSearchAux_eq (cs : List Char) : ∀ b,
    mobileSearchAux b cs =
      ((List.range cs.length).find? (okAtB b cs)).map
        fun i => (cs.drop i).take 10 := by
  induction cs with
  | nil => intro b; rfl
  | cons c rest ih =>
      intro b
      rw [List.length_cons, List.range_succ_eq_map]
      by_cases h : (!b && ok10 (c :: rest)) = true
      · have hp : okAtB b (c :: rest) 0 = true := by
          simpa [okAtB] using h
        simp [mobileSearchAux, h, List.find?_cons, hp]
      · have hp : okAtB b (c :: rest) 0 = false := by
          simpa [okAtB] using h
        have hL : mobileSearchAux b (c :: rest) =
            mobileSearchAux (isWordChar c) rest := by
          simp [mobileSearchAux, h]
        rw [hL, ih (isWordChar c)]
        rw [List.find?_cons, hp]
        simp only [Bool.false_eq_true, if_false]
        rw [find?_map_comp]
        simp only [Nat.succ_eq_add_one, okAtB_succ, Option.map_map]
        rcases List.find? (okAtB (isWordChar c) rest) (List.range rest.length)
          with _ | i
        · rfl
        · simp [List.drop_succ_cons]

/-- C2 (counterexample): `a1234567890` contains a maximal run of
exactly ten digits, but the extractor returns null for it: the `\b`
word boundaries of the pattern reject a run adjacent to a letter. -/
theorem c2_word_boundary_blocks_run :
    claimPhone "a1234567890".toList = some "1234567890".toList ∧
    extractMobile "a1234567890".toList = none :=
  ⟨by decide, by decide⟩

/-- C2 (amended): the phone extractor returns the ten-digit window at
the first offset where ten digits are delimited by word boundaries
(start/end of string or an adjacent non-word character), and null when
no such offset exists.  In particular it never returns a proper
substring or superstring of a digit run, but a ten-digit run adjacent
to a letter, digit or underscore is not matched. -/
theorem c2_extractMobile_first_bounded_run (cs : List Char) :
    extractMobile cs =
      ((List.range cs.length).find? (okAtB false cs)).map
        fun i => (cs.drop i).take 10 :=
  mobileSearchAux_eq cs false

theorem isCS_of_ws {c : Char} (h : isPySpace c = true) : isCS c = true := by
  simp [isCS, h]

theorem wsOk_of_sublist {v u : List Char} (h : v.Sublist u) (hu : wsOk u) :
    wsOk v :=
  fun c hc => hu c (h.subset hc)

theorem noDoubleWS_tail {c : Char} {l : List Char}
    (h : noDoubleWS (c :: l) = true) : noDoubleWS l = true := by
  cases l with
  | nil => rfl
  | cons d rest =>
      simp only [noDoubleWS, Bool.and_eq_true] at h
      exact h.2

theorem noDoubleWS_cons_head {c : Char} {l : List Char}
    (h : noDoubleWS (c :: l) = true) (hc : isPySpace c = true) :
    headNotWS l = true := by
  cases l with
  | nil => rfl
  | cons d rest =>
      simp only [noDoubleWS, Bool.and_eq_true] at h
      have h1 := h.1
      simp only [hc, Bool.true_and, Bool.not_eq_true'] at h1
      simp [headNotWS, h1]

theorem noDoubleWS_cons {c : Char} {l : List Char}
    (h : isPySpace c = false ∨ headNotWS l = true)
    (hl : noDoubleWS l = true) : noDoubleWS (c :: l) = true := by
  cases l with
  | nil => rfl
  | cons d rest =>
      simp only [noDoubleWS, Bool.and_eq_true]
      refine ⟨?_, hl⟩
      rcases h with h | h
      · simp [h]
      · simp only [headNotWS, Bool.not_eq_true'] at h
        simp [h]

theorem noDoubleWS_append_right {t l : List Char}
    (h : noDoubleWS (t ++ l) = true) : noDoubleWS l = true := by
  induction t with
  | nil => exact h
  | cons a t ih => exact ih (noDoubleWS_tail h)

theorem noDoubleWS_append_left {t l : List Char}
    (h : noDoubleWS (t ++ l) = true) : noDoubleWS t = true := by
  induction t with
  | nil => rfl
  | cons a t ih =>
      cases t with
      | nil => rfl
      | cons b t' =>
          simp only [List.cons_append, noDoubleWS, Bool.and_eq_true] at h ⊢
          exact ⟨h.1, ih h.2⟩

theorem good_of_pfx {v u : List Char} (h : v <+: u) (hw : wsOk u)
    (hd : noDoubleWS u = true) : wsOk v ∧ noDoubleWS v = true := by
  obtain ⟨t, rfl⟩ := h
  exact ⟨wsOk_of_sublist (List.sublist_append_left v t) hw,
    noDoubleWS_append_left hd⟩

theorem good_of_sfx {v u : List Char} (h : v <:+ u) (hw : wsOk u)
    (hd : noDoubleWS u = true) : wsOk v ∧ noDoubleWS v = true := by
  obtain ⟨t, rfl⟩ := h
  exact ⟨wsOk_of_sublist (List.sublist_append_right t v) hw,
    noDoubleWS_append_right hd⟩

theorem wsOk_collapseAux (l : List Char) : ∀ b, wsOk (collapseAux b l) := by
  induction l with
  | nil => intro b c hc; simp [collapseAux] at hc
  | cons c rest ih =>
      intro b d hd hws
      cases hc : isPySpace c with
      | false =>
          rw [show collapseAux b (c :: rest) = c :: collapseAux false rest
              from by cases b <;> simp [collapseAux, hc]] at hd
          rcases List.mem_cons.mp hd with rfl | hd'
          · rw [hws] at hc; cases hc
          · exact ih false d hd' hws
      | true =>
          cases b with
          | false =>
              rw [show collapseAux false (c :: rest) =
                  ' ' :: collapseAux true rest from by
                simp [collapseAux, hc]] at hd
              rcases List.mem_cons.mp hd with rfl | hd'
              · rfl
              · exact ih true d hd' hws
          | true =>
              rw [show collapseAux true (c :: rest) = collapseAux true rest
                  from by simp [collapseAux, hc]] at hd
              exact ih true d hd hws

theorem headNotWS_collapseAux_true (l : List Char) :
    headNotWS (collapseAux true l) = true := by
  induction l with
  | nil => rfl
  | cons c rest ih =>
      cases hc : isPySpace c with
      | false =>
          rw [show collapseAux true (c :: rest) = c :: collapseAux false rest
              from by simp [collapseAux, hc]]
          simp [headNotWS, hc]
      | true =>
          rw [show collapseAux true (c :: rest) = collapseAux true rest
              from by simp [collapseAux, hc]]
          exact ih

theorem noDoubleWS_collapseAux (l : List Char) : ∀ b,
    noDoubleWS (collapseAux b l) = true := by
  induction l with
  | nil => intro b; rfl
  | cons c rest ih =>
      intro b
      cases hc : isPySpace c with
      | false =>
          rw [show collapseAux b (c :: rest) = c :: collapseAux false rest
              from by cases b <;> simp [collapseAux, hc]]
          exact noDoubleWS_cons (Or.inl hc) (ih false)
      | true =>
          cases b with
          | false =>
              rw [show collapseAux false (c :: rest) =
                  ' ' :: collapseAux true rest from by simp [collapseAux, hc]]
              exact noDoubleWS_cons
                (Or.inr (headNotWS_collapseAux_true rest)) (ih true)
          | true =>
              rw [show collapseAux true (c :: rest) = collapseAux true rest
                  from by simp [collapseAux, hc]]
              exact ih true

theorem collapseAux_true_of_headNot {l : List Char}
    (h : headNotWS l = true) : collapseAux true l = collapseAux false l := by
  cases l with
  | nil => rfl
  | cons c rest =>
      simp only [headNotWS, Bool.not_eq_true'] at h
      simp [collapseAux, h]

theorem collapse_fix {l : List Char} (hws : wsOk l)
    (hnd : noDoubleWS l = true) : collapseAux false l = l := by
  induction l with
  | nil => rfl
  | cons c rest ih =>
      cases hc : isPySpace c with
      | false =>
          rw [show collapseAux false (c :: rest) = c :: collapseAux false rest
              from by simp [collapseAux, hc]]
          rw [ih (fun d hd => hws d (List.mem_cons_of_mem c hd))
            (noDoubleWS_tail hnd)]
      | true =>
          have hce : c = ' ' := hws c (List.mem_cons_self c rest) hc
          rw [show collapseAux false (c :: rest) =
              ' ' :: collapseAux true rest from by simp [collapseAux, hc]]
          rw [collapseAux_true_of_headNot (noDoubleWS_cons_head hnd hc)]
          rw [ih (fun d hd => hws d (List.mem_cons_of_mem c hd))
            (noDoubleWS_tail hnd)]
          rw [hce]

theorem dropWhile_fix (p : Char → Bool) {l : List Char}
    (h : ∀ c, l.head? = some c → p c = false) : l.dropWhile p = l := by
  cases l with
  | nil => rfl
  | cons c rest =>
      rw [List.dropWhile_cons, if_neg (by simp [h c rfl])]

theorem rev_dropWhile_pfx (p : Char → Bool) (l : List Char) :
    (l.reverse.dropWhile p).reverse <+: l := by
  have h := (List.dropWhile_suffix (l := l.reverse) p).reverse
  rwa [List.reverse_reverse] at h

theorem head?_of_pfx {v u : List Char} (h : v <+: u) (hv : v ≠ []) :
    u.head? = v.head? := by
  obtain ⟨t, rfl⟩ := h
  cases v with
  | nil => exact absurd rfl hv
  | cons c cs => rfl

theorem head?_dropWhile_false (p : Char → Bool) (l : List Char) {c : Char}
    (h : (l.dropWhile p).head? = some c) : p c = false := by
  have hm := List.head?_dropWhile_not p l
  rw [h] at hm
  exact hm

/-- A string that is already collapsed, with non-`[,\s]` characters at
both ends, is a fixed point of the whole normalization `tidy`. -/
theorem tidy_fixes {v : List Char} (hws : wsOk v) (hnd : noDoubleWS v = true)
    (hh : ∀ c, v.head? = some c → isCS c = false)
    (hl : ∀ c, v.reverse.head? = some c → isCS c = false) :
    tidy v = v := by
  have hwsf : ∀ c, v.head? = some c → isPySpace c = false := by
    intro c hc
    have h1 := hh c hc
    cases hsp : isPySpace c
    · rfl
    · exact absurd (isCS_of_ws hsp) (by simp [h1])
  have hwsl : ∀ c, v.reverse.head? = some c → isPySpace c = false := by
    intro c hc
    have h1 := hl c hc
    cases hsp : isPySpace c
    · rfl
    · exact absurd (isCS_of_ws hsp) (by simp [h1])
  have h1 : collapseWS v = v := collapse_fix hws hnd
  have h2 : pyStrip v = v := by
    unfold pyStrip
    rw [dropWhile_fix isPySpace hwsf, dropWhile_fix isPySpace hwsl,
      List.reverse_reverse]
  have h3 : stripLeadCS v = v := dropWhile_fix isCS hh
  have h4 : stripTrailCS v = v := by
    unfold stripTrailCS
    rw [dropWhile_fix isCS hl, List.reverse_reverse]
  unfold tidy
  rw [h1, h2, h3, h4]

/-- C6 (counterexample): the complaint-text cleanup is not idempotent.
Removing the `call me Bob` match from
`my call me Bob name is Alice` leaves `my name is Alice`, which a
second cleanup pass removes entirely. -/
theorem c6_cleanup_not_idempotent :
    cleanupText (cleanupText "my call me Bob name is Alice".toList) ≠
      cleanupText "my call me Bob name is Alice".toList := by decide

/-- C6 (amended): the normalization part of the cleanup — collapse
whitespace runs, strip surrounding whitespace, strip leading and
trailing comma/whitespace — is idempotent on every string.  The full
cleanup including pattern removal is not (see the counterexample):
removing one name-pattern match can expose a match of an
earlier-applied pattern that only a second pass would remove. -/
theorem c6_tidy_idempotent (cs : List Char) : tidy (tidy cs) = tidy cs := by
  have hgu : wsOk (collapseWS cs) ∧ noDoubleWS (collapseWS cs) = true :=
    ⟨wsOk_collapseAux cs false, noDoubleWS_collapseAux cs false⟩
  have hg1 := good_of_sfx (List.dropWhile_suffix isPySpace) hgu.1 hgu.2
  have hg2 := good_of_pfx
    (rev_dropWhile_pfx isPySpace ((collapseWS cs).dropWhile isPySpace))
    hg1.1 hg1.2
  have hg3 := good_of_sfx (List.dropWhile_suffix isCS) hg2.1 hg2.2
  have hg4 := good_of_pfx
    (rev_dropWhile_pfx isCS ((pyStrip (collapseWS cs)).dropWhile isCS))
    hg3.1 hg3.2
  have hveq : tidy cs =
      (((pyStrip (collapseWS cs)).dropWhile isCS).reverse.dropWhile
        isCS).reverse := rfl
  have hh : ∀ c, (tidy cs).head? = some c → isCS c = false := by
    intro c hc
    have hne : tidy cs ≠ [] := by
      intro he; rw [he] at hc; cases hc
    have hpfx : tidy cs <+: (pyStrip (collapseWS cs)).dropWhile isCS :=
      hveq ▸ rev_dropWhile_pfx isCS _
    have heq : ((pyStrip (collapseWS cs)).dropWhile isCS).head? =
        (tidy cs).head? := head?_of_pfx hpfx hne
    exact head?_dropWhile_false isCS (pyStrip (collapseWS cs))
      (heq.trans hc)
  have hl : ∀ c, (tidy cs).reverse.head? = some c → isCS c = false := by
    intro c hc
    have heq : (tidy cs).reverse =
        ((pyStrip (collapseWS cs)).dropWhile isCS).reverse.dropWhile isCS := by
      rw [hveq, List.reverse_reverse]
    rw [heq] at hc
    exact head?_dropWhile_false isCS _ hc
  exact tidy_fixes (hveq ▸ hg4.1) (hveq ▸ hg4.2) hh hl

/-- C9 (counterexample): the fallback extractor can surface an empty
string (not null) for the name: on `my name is  ,` the first name
pattern captures a lone space, which strips to the empty string. -/
theorem c9_name_empty_string :
    (extract_data_fallback "my name is  ,".toList).name = some [] := by decide

/-- A string that is a fixed point target of stripping: `v = pyStrip g`
is unchanged by a further strip. -/
theorem pyStrip_fixes {v : List Char}
    (hh : ∀ c, v.head? = some c → isPySpace c = false)
    (hl : ∀ c, v.reverse.head? = some c → isPySpace c = false) :
    pyStrip v = v := by
  unfold pyStrip
  rw [dropWhile_fix isPySpace hh, dropWhile_fix isPySpace hl,
    List.reverse_reverse]

theorem pyStrip_idem (g : List Char) : pyStrip (pyStrip g) = pyStrip g := by
  apply pyStrip_fixes
  · intro c hc
    have hne : pyStrip g ≠ [] := by intro he; rw [he] at hc; cases hc
    have hpfx : pyStrip g <+: g.dropWhile isPySpace :=
      rev_dropWhile_pfx isPySpace _
    have heq := head?_of_pfx hpfx hne
    exact head?_dropWhile_false isPySpace g (heq.trans hc)
  · intro c hc
    have heq : (pyStrip g).reverse =
        (g.dropWhile isPySpace).reverse.dropWhile isPySpace := by
      unfold pyStrip; rw [List.reverse_reverse]
    rw [heq] at hc
    exact head?_dropWhile_false isPySpace _ hc

/-- The head of any `tidy` output survives the final leading
`[,\s]+` strip, hence is neither a comma nor whitespace. -/
theorem tidy_head_not_cs (x : List Char) {c : Char}
    (hc : (tidy x).head? = some c) : isCS c = false := by
  have hne : tidy x ≠ [] := by intro he; rw [he] at hc; cases hc
  have hpfx : tidy x <+: (pyStrip (collapseWS x)).dropWhile isCS :=
    rev_dropWhile_pfx isCS _
  have heq := head?_of_pfx hpfx hne
  exact head?_dropWhile_false isCS (pyStrip (collapseWS x)) (heq.trans hc)

/-- C9 (amended): the fallback extractor is total and the fields it
returns are well-shaped: an extracted phone number is always a
non-empty ten-character string; an extracted complaint text is always
non-empty and begins with a character that is neither whitespace nor a
comma (so it is never empty or whitespace-only); an extracted name is
always whitespace-trimmed — but, unlike the original claim, the name
can be the empty string (see the counterexample). -/
theorem c9_fallback_fields_shape (msg : List Char) :
    (∀ r, (extract_data_fallback msg).mobile_number = some r →
      r.length = 10 ∧ r ≠ []) ∧
    (∀ t, (extract_data_fallback msg).complaint_text = some t →
      t ≠ [] ∧ ∀ c, t.head? = some c → isCS c = false) ∧
    (∀ n, (extract_data_fallback msg).name = some n → pyStrip n = n) := by
  refine ⟨?_, ?_, ?_⟩
  · intro r hr
    simp only [extract_data_fallback] at hr
    have hr' : mobileSearchAux false msg = some r := hr
    rw [mobileSearchAux_eq msg false] at hr'
    rcases hfi : List.find? (okAtB false msg) (List.range msg.length)
      with _ | i
    · rw [hfi] at hr'; cases hr'
    · rw [hfi] at hr'
      have hok := List.find?_some hfi
      have hok2 : ok10 (msg.drop i) = true :=
        (Bool.and_eq_true_iff.mp hok).2
      have hlen : ((msg.drop i).take 10).length = 10 := by
        simp only [ok10, Bool.and_eq_true] at hok2
        exact beq_iff_eq.mp hok2.1.1
      have hr10 : r = (msg.drop i).take 10 := (Option.some.inj hr').symm
      subst hr10
      refine ⟨hlen, fun he => ?_⟩
      rw [he] at hlen
      exact absurd hlen (by decide)
  · intro t ht
    simp only [extract_data_fallback] at ht
    have h : extractText msg = some t := ht
    simp only [extractText] at h
    by_cases he : (cleanupText msg).isEmpty = true
    · rw [if_pos he] at h; cases h
    · rw [if_neg he] at h
      have := Option.some.inj h
      subst this
      refine ⟨fun hnil => he (by rw [hnil]; rfl), fun c hc => ?_⟩
      exact tidy_head_not_cs _ hc
  · intro n hn
    simp only [extract_data_fallback] at hn
    have h : extractName msg = some n := hn
    unfold extractName at h
    rcases hfs : List.findSome? (fun m => searchPattern m msg) namePatterns
      with _ | g
    · rw [hfs] at h; cases h
    · rw [hfs] at h
      simp only [Option.map_some'] at h
      have := Option.some.inj h
      subst this
      exact pyStrip_idem g

theorem c9_fallback_fields_witness :
    "1234567890".toList.length = 10 ∧ "1234567890".toList ≠ [] :=
  (c9_fallback_fields_shape "call 1234567890 now".toList).1
    "1234567890".toList (by decide)

end Grievance
